import Mathlib

/-!
Verification of the facesjs asset build pipeline.

This file embeds the catalog generator `src/tools/generate-catalog.mjs`
(text-based SVG sanitization, view-box extraction, grid layout, composite
document assembly, best-effort raster export) and the feature-id
replacement helper `replaceFeatureIds`, and proves properties about them.

Numbers computed by the JavaScript code are modelled exactly: integer
layout arithmetic as `Nat`, fractional geometry as `JSNum`, a model of the
JavaScript number line with rationals, two infinities and NaN (floating
point rounding is not modelled; all the arithmetic here is exact).
Strings are modelled as `String`/`List Char`; each regex used by the
source is embedded as an executable scanning function with the same
leftmost-match, lazy-quantifier semantics.
-/

/-- Characters matched by the regex class `\s` (ASCII part; the rare
Unicode space characters are not modelled). -/
def isWs (c : Char) : Bool :=
  c == ' ' || c == '\t' || c == '\n' || c == '\r' || c == '\x0b' || c == '\x0c'

/-- Case-insensitive prefix test: does `s` start with pattern `p`?
`p` is given in lowercase; `s` characters are lowered before comparing,
matching a regex `i` flag over ASCII patterns. -/
def startsWithCI : List Char → List Char → Bool
  | [], _ => true
  | _ :: _, [] => false
  | p :: ps, c :: cs => (c.toLower == p) && startsWithCI ps cs

/-- Case-sensitive prefix test. -/
def startsWithCS : List Char → List Char → Bool
  | [], _ => true
  | _ :: _, [] => false
  | p :: ps, c :: cs => (c == p) && startsWithCS ps cs

/-- Does `s` contain pattern `p` (case-insensitively) at some position? -/
def hasSubCI (p : List Char) : List Char → Bool
  | [] => startsWithCI p []
  | c :: t => startsWithCI p (c :: t) || hasSubCI p t

/-- Does `s` contain pattern `p` (case-sensitively) at some position? -/
def hasSubCS (p : List Char) : List Char → Bool
  | [] => startsWithCS p []
  | c :: t => startsWithCS p (c :: t) || hasSubCS p t

/-- Consume characters up to and including the first `>`; `none` when no
`>` remains.  This is the effect of the lazy regex tail `[^>]*?>`
(and of the greedy `[^>]*>`: both end at the first `>`). -/
def untilGt : List Char → Option (List Char)
  | [] => none
  | c :: t => if c == '>' then some t else untilGt t

/-- Drop through the first case-sensitive occurrence of `pat`, returning
the suffix after it; `none` when `pat` does not occur.  This is the effect
of a lazy regex body followed by the literal `pat`. -/
def dropThroughCS (pat : List Char) : List Char → Option (List Char)
  | [] => if startsWithCS pat [] then some [] else none
  | c :: t =>
    if startsWithCS pat (c :: t) then some ((c :: t).drop pat.length)
    else dropThroughCS pat t

/-- Case-insensitive version of `dropThroughCS`. -/
def dropThroughCI (pat : List Char) : List Char → Option (List Char)
  | [] => if startsWithCI pat [] then some [] else none
  | c :: t =>
    if startsWithCI pat (c :: t) then some ((c :: t).drop pat.length)
    else dropThroughCI pat t

/-! ### The prolog stripper

`stripProlog` chains three global replacements:
`/<\?xml[^>]*?>/gi`, `/<!--[\s\S]*?-->/g`, `/<!DOCTYPE[^>]*?>/gi`.
Each scan walks left to right; on a match it resumes after the matched
span, otherwise it keeps one character and moves on.  The scans are
written with an explicit fuel argument (instantiated with the input
length) so that they are structurally recursive; exhausted fuel returns
the rest unchanged and is never reached from the wrappers. -/

/-- Global replacement of `/<\?xml[^>]*?>/gi` by the empty string. -/
def rmXmlGo : ℕ → List Char → List Char
  | 0, s => s
  | _ + 1, [] => []
  | f + 1, c :: t =>
    if startsWithCI "<?xml".data (c :: t) then
      match untilGt ((c :: t).drop 5) with
      | some r => rmXmlGo f r
      | none => c :: rmXmlGo f t
    else c :: rmXmlGo f t

def rmXml (s : List Char) : List Char := rmXmlGo s.length s

/-- Global replacement of `/<!--[\s\S]*?-->/g` by the empty string. -/
def rmCommentsGo : ℕ → List Char → List Char
  | 0, s => s
  | _ + 1, [] => []
  | f + 1, c :: t =>
    if startsWithCS "<!--".data (c :: t) then
      match dropThroughCS "-->".data ((c :: t).drop 4) with
      | some r => rmCommentsGo f r
      | none => c :: rmCommentsGo f t
    else c :: rmCommentsGo f t

def rmComments (s : List Char) : List Char := rmCommentsGo s.length s

/-- Global replacement of `/<!DOCTYPE[^>]*?>/gi` by the empty string. -/
def rmDoctypeGo : ℕ → List Char → List Char
  | 0, s => s
  | _ + 1, [] => []
  | f + 1, c :: t =>
    if startsWithCI "<!doctype".data (c :: t) then
      match untilGt ((c :: t).drop 9) with
      | some r => rmDoctypeGo f r
      | none => c :: rmDoctypeGo f t
    else c :: rmDoctypeGo f t

def rmDoctype (s : List Char) : List Char := rmDoctypeGo s.length s

def stripPrologL (s : List Char) : List Char := rmDoctype (rmComments (rmXml s))

/-- `stripProlog` from generate-catalog.mjs: remove the XML declaration,
all comments and any DOCTYPE declaration. -/
def stripProlog (svg : String) : String := ⟨stripPrologL svg.data⟩

/-! ### The sanitizer

`sanitize` chains four global replacements: metadata blocks, paired
editor-namespace (sodipodi/inkscape) elements, self-closing
editor-namespace elements, and editor-namespace attributes. -/

/-- Global replacement of `/<metadata[\s\S]*?<\/metadata>/gi`. -/
def rmMetadataGo : ℕ → List Char → List Char
  | 0, s => s
  | _ + 1, [] => []
  | f + 1, c :: t =>
    if startsWithCI "<metadata".data (c :: t) then
      match dropThroughCI "</metadata>".data ((c :: t).drop 9) with
      | some r => rmMetadataGo f r
      | none => c :: rmMetadataGo f t
    else c :: rmMetadataGo f t

def rmMetadata (s : List Char) : List Char := rmMetadataGo s.length s

/-- Match `<\s*(?:sodipodi|inkscape):[^>]*?\/?>` at the head of `s`:
a `<`, optional whitespace, one of the two editor namespace markers, then
everything up to and including the first `>`.  Returns the suffix after
the `>` on success. -/
def matchEditorOpen : List Char → Option (List Char)
  | [] => none
  | c :: rest =>
    if c = '<' then
      let r := rest.dropWhile isWs
      if startsWithCI "sodipodi:".data r || startsWithCI "inkscape:".data r then
        untilGt (r.drop 9)
      else none
    else none

/-- Match `<\/\s*(?:sodipodi|inkscape):[^>]*?>` at the head of `s`. -/
def matchEditorClose : List Char → Option (List Char)
  | c :: d :: rest =>
    if c = '<' ∧ d = '/' then
      let r := rest.dropWhile isWs
      if startsWithCI "sodipodi:".data r || startsWithCI "inkscape:".data r then
        untilGt (r.drop 9)
      else none
    else none
  | _ => none

/-- Suffix after the first position where the editor close pattern
matches (the effect of a lazy body before that pattern). -/
def findEditorClose : List Char → Option (List Char)
  | [] => none
  | c :: t =>
    match matchEditorClose (c :: t) with
    | some r => some r
    | none => findEditorClose t

/-- Global replacement of the paired editor-element regex
`/<\s*(?:sodipodi|inkscape):[^>]*?\/?>[\s\S]*?<\/\s*(?:sodipodi|inkscape):[^>]*?>/gi`. -/
def rmEditorPairedGo : ℕ → List Char → List Char
  | 0, s => s
  | _ + 1, [] => []
  | f + 1, c :: t =>
    match matchEditorOpen (c :: t) with
    | some afterOpen =>
      match findEditorClose afterOpen with
      | some afterClose => rmEditorPairedGo f afterClose
      | none => c :: rmEditorPairedGo f t
    | none => c :: rmEditorPairedGo f t

def rmEditorPaired (s : List Char) : List Char := rmEditorPairedGo s.length s

/-- Global replacement of `/<\s*(?:sodipodi|inkscape):[^>]*?\/?>/gi`. -/
def rmEditorSelfGo : ℕ → List Char → List Char
  | 0, s => s
  | _ + 1, [] => []
  | f + 1, c :: t =>
    match matchEditorOpen (c :: t) with
    | some afterOpen => rmEditorSelfGo f afterOpen
    | none => c :: rmEditorSelfGo f t

def rmEditorSelf (s : List Char) : List Char := rmEditorSelfGo s.length s

/-- Match `\s+(?:inkscape|sodipodi):[^=\s]+="[^"]*"` at the head of `s`:
whitespace, an editor namespace marker, a nonempty attribute name, `="`,
then the quoted value up to the first `"`.  Returns the suffix after the
closing quote on success. -/
def matchEditorAttr : List Char → Option (List Char)
  | [] => none
  | c :: t =>
    if isWs c then
      let r := (c :: t).dropWhile isWs
      if startsWithCI "inkscape:".data r || startsWithCI "sodipodi:".data r then
        let r2 := r.drop 9
        let nm := r2.takeWhile (fun d => !(d == '=') && !isWs d)
        if nm.isEmpty then none
        else
          match r2.drop nm.length with
          | '=' :: '"' :: r3 =>
            let v := r3.takeWhile (fun d => !(d == '"'))
            match r3.drop v.length with
            | '"' :: r4 => some r4
            | _ => none
          | _ => none
      else none
    else none

/-- Global replacement of the editor-attribute regex. -/
def rmEditorAttrsGo : ℕ → List Char → List Char
  | 0, s => s
  | _ + 1, [] => []
  | f + 1, c :: t =>
    match matchEditorAttr (c :: t) with
    | some r => rmEditorAttrsGo f r
    | none => c :: rmEditorAttrsGo f t

def rmEditorAttrs (s : List Char) : List Char := rmEditorAttrsGo s.length s

def sanitizeL (s : List Char) : List Char :=
  rmEditorAttrs (rmEditorSelf (rmEditorPaired (rmMetadata s)))

/-- `sanitize` from generate-catalog.mjs: drop metadata blocks, drop
Inkscape/sodipodi elements, and remove editor-namespace attributes. -/
def sanitize (svg : String) : String := ⟨sanitizeL svg.data⟩

/-- Remove the first match of `/<svg[^>]*>/i` (non-global). -/
def rmFirstSvgOpen : List Char → List Char
  | [] => []
  | c :: t =>
    if startsWithCI "<svg".data (c :: t) then
      match untilGt ((c :: t).drop 4) with
      | some r => r
      | none => c :: rmFirstSvgOpen t
    else c :: rmFirstSvgOpen t

/-- Remove the first match of `/<\/svg>/i` (non-global). -/
def rmFirstSvgClose : List Char → List Char
  | [] => []
  | c :: t =>
    if startsWithCI "</svg>".data (c :: t) then (c :: t).drop 6
    else c :: rmFirstSvgClose t

def extractInnerL (s : List Char) : List Char := rmFirstSvgClose (rmFirstSvgOpen s)

/-- `extractInner` from generate-catalog.mjs: strip the outer `<svg ...>`
open tag and the `</svg>` close tag. -/
def extractInner (svg : String) : String := ⟨extractInnerL svg.data⟩

/-- The full per-fragment text pipeline: the source computes
`clean = sanitize(stripProlog(raw))` and `inner = extractInner(clean)`. -/
def fullPipelineL (s : List Char) : List Char := extractInnerL (sanitizeL (stripPrologL s))

def fullPipeline (raw : String) : String := ⟨fullPipelineL raw.data⟩

example : stripProlog "<?xml version=\"1.0\"?><a/>" = "<a/>" := by decide
example : fullPipeline "<svg x=\"1\"><rect/></svg>" = "<rect/>" := by decide
example : sanitize "<g inkscape:label=\"L1\" fill=\"red\"/>" = "<g fill=\"red\"/>" := by decide
example : stripProlog "<!--a--><g/><!--b-->" = "<g/>" := by decide

/-! ### The JavaScript number model

Exact model of the JavaScript number line: a rational, one of the two
infinities, or NaN.  `undefined` appearing in numeric positions is also
modelled as `nan` (it coerces to NaN in every numeric operation the
source performs).  Rounding of IEEE doubles is not modelled; all
arithmetic here is exact. -/

inductive JSNum where
  | num (q : ℚ)
  | posInf
  | negInf
  | nan
deriving DecidableEq

/-- JavaScript addition. -/
def jadd : JSNum → JSNum → JSNum
  | .nan, _ => .nan
  | _, .nan => .nan
  | .num a, .num b => .num (a + b)
  | .posInf, .negInf => .nan
  | .negInf, .posInf => .nan
  | .posInf, _ => .posInf
  | _, .posInf => .posInf
  | .negInf, _ => .negInf
  | _, .negInf => .negInf

/-- JavaScript negation. -/
def jneg : JSNum → JSNum
  | .num a => .num (-a)
  | .posInf => .negInf
  | .negInf => .posInf
  | .nan => .nan

/-- JavaScript subtraction. -/
def jsub (a b : JSNum) : JSNum := jadd a (jneg b)

/-- JavaScript multiplication. -/
def jmul : JSNum → JSNum → JSNum
  | .nan, _ => .nan
  | _, .nan => .nan
  | .num a, .num b => .num (a * b)
  | .num a, .posInf => if a = 0 then .nan else if 0 < a then .posInf else .negInf
  | .posInf, .num a => if a = 0 then .nan else if 0 < a then .posInf else .negInf
  | .num a, .negInf => if a = 0 then .nan else if 0 < a then .negInf else .posInf
  | .negInf, .num a => if a = 0 then .nan else if 0 < a then .negInf else .posInf
  | .posInf, .posInf => .posInf
  | .posInf, .negInf => .negInf
  | .negInf, .posInf => .negInf
  | .negInf, .negInf => .posInf

/-- JavaScript division.  Division of a nonzero finite number by zero
gives an infinity (the sign of the signed zero divisor is not modelled;
the positive-zero behaviour is used). -/
def jdiv : JSNum → JSNum → JSNum
  | .nan, _ => .nan
  | _, .nan => .nan
  | .num a, .num b =>
    if b = 0 then (if a = 0 then .nan else if 0 < a then .posInf else .negInf)
    else .num (a / b)
  | .num _, .posInf => .num 0
  | .num _, .negInf => .num 0
  | .posInf, .num a => if 0 ≤ a then .posInf else .negInf
  | .negInf, .num a => if 0 ≤ a then .negInf else .posInf
  | .posInf, .posInf => .nan
  | .posInf, .negInf => .nan
  | .negInf, .posInf => .nan
  | .negInf, .negInf => .nan

/-- `Math.min`: NaN-propagating minimum. -/
def jmin : JSNum → JSNum → JSNum
  | .nan, _ => .nan
  | _, .nan => .nan
  | .num a, .num b => .num (min a b)
  | .negInf, _ => .negInf
  | _, .negInf => .negInf
  | .posInf, x => x
  | x, .posInf => x

/-! ### View-box extraction -/

/-- Value of a digit list read in base 10. -/
def digitsToNat (ds : List Char) : ℕ := ds.foldl (fun n c => 10 * n + (c.toNat - 48)) 0

/-- `String.prototype.split(/\s+/)`: split on maximal whitespace runs,
producing an empty leading (trailing) piece when the string starts
(ends) with whitespace, and `[""]` on the empty string. -/
def splitWsGo : ℕ → List Char → List Char → List (List Char)
  | 0, acc, _ => [acc.reverse]
  | _ + 1, acc, [] => [acc.reverse]
  | f + 1, acc, c :: t =>
    if isWs c then acc.reverse :: splitWsGo f [] (t.dropWhile isWs)
    else splitWsGo f (c :: acc) t

def splitWs (s : List Char) : List (List Char) := splitWsGo s.length [] s

/-- `parseFloat`: optional sign, integer digits, optional fractional
digits, optional exponent; trailing junk is ignored; no digits at all
gives NaN (`none`).  The `Infinity` literal and Unicode whitespace are
not modelled (never produced by the inputs considered here). -/
def parseFloatQ (s : List Char) : Option ℚ :=
  let s1 := s.dropWhile isWs
  let neg : Bool := match s1 with
    | '-' :: _ => true
    | _ => false
  let s2 : List Char := match s1 with
    | '-' :: r => r
    | '+' :: r => r
    | r => r
  let ip := s2.takeWhile Char.isDigit
  let s3 := s2.drop ip.length
  let fp : List Char := match s3 with
    | '.' :: r => r.takeWhile Char.isDigit
    | _ => []
  let s4 : List Char := match s3 with
    | '.' :: r => r.drop (r.takeWhile Char.isDigit).length
    | r => r
  if ip.isEmpty && fp.isEmpty then none
  else
    let ex : Option ℤ := match s4 with
      | 'e' :: '-' :: r | 'E' :: '-' :: r =>
        let ds := r.takeWhile Char.isDigit
        if ds.isEmpty then none else some (-(digitsToNat ds : ℤ))
      | 'e' :: '+' :: r | 'E' :: '+' :: r =>
        let ds := r.takeWhile Char.isDigit
        if ds.isEmpty then none else some (digitsToNat ds : ℤ)
      | 'e' :: r | 'E' :: r =>
        let ds := r.takeWhile Char.isDigit
        if ds.isEmpty then none else some (digitsToNat ds : ℤ)
      | _ => none
    let mag : ℚ :=
      if fp.isEmpty then (digitsToNat ip : ℚ)
      else (digitsToNat ip : ℚ) + (digitsToNat fp : ℚ) / (10 : ℚ) ^ fp.length
    let mag2 : ℚ := match ex with
      | some k => mag * (10 : ℚ) ^ k
      | none => mag
    some (if neg then -mag2 else mag2)

/-- `parseFloat` landing in the JavaScript number model. -/
def parseFloatJS (s : List Char) : JSNum :=
  match parseFloatQ s with
  | some q => .num q
  | none => .nan

/-- A parsed view box.  Fields that `parseFloat` could not produce
(NaN) or that were missing from the destructuring (undefined) are `nan`. -/
structure ViewBox where
  minX : JSNum
  minY : JSNum
  width : JSNum
  height : JSNum
deriving DecidableEq

/-- The fallback `{ minX: 0, minY: 0, width: 400, height: 600 }`. -/
def defaultViewBox : ViewBox := ⟨.num 0, .num 0, .num 400, .num 600⟩

/-- First match of `/viewBox="([^"]+)"/i`: scan for `viewBox="`
case-insensitively, capture the nonempty run up to the next `"`, and
require that closing quote to be present. -/
def findViewBoxBody : List Char → Option (List Char)
  | [] => none
  | c :: t =>
    if startsWithCI "viewbox=\"".data (c :: t) then
      let r := (c :: t).drop 9
      let body := r.takeWhile (fun d => !(d == '"'))
      if body.isEmpty then findViewBoxBody t
      else
        match r.drop body.length with
        | '"' :: _ => some body
        | _ => findViewBoxBody t
    else findViewBoxBody t

/-- `extractViewBox` from generate-catalog.mjs.  Note that it matches the
raw text it is given; when the regex fails it returns the default box, and
when the regex succeeds the four tokens of the captured body are parsed
with `parseFloat` (missing or unparsable tokens give `nan`). -/
def extractViewBox (svg : String) : ViewBox :=
  match findViewBoxBody svg.data with
  | none => defaultViewBox
  | some body =>
    let ts := (splitWs body).map parseFloatJS
    ⟨ts.getD 0 .nan, ts.getD 1 .nan, ts.getD 2 .nan, ts.getD 3 .nan⟩

example : extractViewBox "<svg viewBox=\"0 0 100 200\">" =
    ⟨.num ((0 : ℕ) : ℚ), .num ((0 : ℕ) : ℚ), .num ((100 : ℕ) : ℚ), .num ((200 : ℕ) : ℚ)⟩ := by
  decide

example : extractViewBox "<svg viewBox=\"0 0 100 200\">" =
    ⟨.num 0, .num 0, .num 100, .num 200⟩ := by decide

example : extractViewBox "<svg>" = defaultViewBox := by decide

example : extractViewBox "<svg viewBox=\"abc\">" = ⟨.nan, .nan, .nan, .nan⟩ := by decide

example : extractViewBox "<svg viewBox=\"1 2\">" = ⟨.num 1, .num 2, .nan, .nan⟩ := by decide

/-! ### Sorting comparators

The source sorts member files with
`.sort((a, b) => a.localeCompare(b, undefined, { numeric: true }))`
and category names with the default `.sort()`.

Locale-aware numeric comparison is modelled by mapping each string to a
key: maximal digit runs become `(0, numeric value)` and every other
character becomes `(1, code point)`, with keys compared lexicographically
(so digit runs compare by value and sort before other characters).  The
default sort comparator is code-unit lexicographic comparison, obtained
from the same key order with every character mapped to `(0, code point)`
(astral characters, where code-unit and code-point order differ, are not
modelled). -/

/-- Lexicographic `≤` on token keys. -/
def keyLe : List (ℕ × ℕ) → List (ℕ × ℕ) → Bool
  | [], _ => true
  | _ :: _, [] => false
  | (a₁, a₂) :: as, (b₁, b₂) :: bs =>
    if a₁ < b₁ then true
    else if b₁ < a₁ then false
    else if a₂ < b₂ then true
    else if b₂ < a₂ then false
    else keyLe as bs

theorem keyLe_cons_iff (a₁ a₂ b₁ b₂ : ℕ) (as bs : List (ℕ × ℕ)) :
    keyLe ((a₁, a₂) :: as) ((b₁, b₂) :: bs) = true ↔
      a₁ < b₁ ∨ a₁ = b₁ ∧ (a₂ < b₂ ∨ a₂ = b₂ ∧ keyLe as bs = true) := by
  simp only [keyLe]
  split_ifs with h1 h2 h3 h4
  · simp [h1]
  · have hne : a₁ ≠ b₁ := by omega
    simp [h1, hne]
  · have he : a₁ = b₁ := by omega
    simp [h1, he, h3]
  · have he : a₁ = b₁ := by omega
    have hne : a₂ ≠ b₂ := by omega
    simp [h1, he, h3, hne]
  · have he : a₁ = b₁ := by omega
    have he2 : a₂ = b₂ := by omega
    simp [h1, he, h3, he2]

theorem keyLe_total (a b : List (ℕ × ℕ)) : keyLe a b = true ∨ keyLe b a = true := by
  induction a generalizing b with
  | nil => left; simp [keyLe]
  | cons p as ih =>
    cases b with
    | nil => right; simp [keyLe]
    | cons q bs =>
      obtain ⟨a₁, a₂⟩ := p
      obtain ⟨b₁, b₂⟩ := q
      rcases Nat.lt_trichotomy a₁ b₁ with hx | hx | hx
      · left; rw [keyLe_cons_iff]; exact Or.inl hx
      · rcases Nat.lt_trichotomy a₂ b₂ with hy | hy | hy
        · left; rw [keyLe_cons_iff]; exact Or.inr ⟨hx, Or.inl hy⟩
        · rcases ih bs with h | h
          · left; rw [keyLe_cons_iff]; exact Or.inr ⟨hx, Or.inr ⟨hy, h⟩⟩
          · right; rw [keyLe_cons_iff]; exact Or.inr ⟨hx.symm, Or.inr ⟨hy.symm, h⟩⟩
        · right; rw [keyLe_cons_iff]; exact Or.inr ⟨hx.symm, Or.inl hy⟩
      · right; rw [keyLe_cons_iff]; exact Or.inl hx

theorem keyLe_trans (a b c : List (ℕ × ℕ)) (hab : keyLe a b = true)
    (hbc : keyLe b c = true) : keyLe a c = true := by
  induction a generalizing b c with
  | nil => simp [keyLe]
  | cons p as ih =>
    cases b with
    | nil => exact absurd hab (by simp [keyLe])
    | cons q bs =>
      cases c with
      | nil => exact absurd hbc (by simp [keyLe])
      | cons r cs =>
        obtain ⟨a₁, a₂⟩ := p
        obtain ⟨b₁, b₂⟩ := q
        obtain ⟨c₁, c₂⟩ := r
        rw [keyLe_cons_iff] at hab hbc ⊢
        rcases hab with h | ⟨he, hh⟩ <;> rcases hbc with h2 | ⟨he2, hh2⟩
        · exact Or.inl (by omega)
        · exact Or.inl (by omega)
        · exact Or.inl (by omega)
        · rcases hh with hx | ⟨hex, hkx⟩ <;> rcases hh2 with hy | ⟨hey, hky⟩
          · exact Or.inr ⟨by omega, Or.inl (by omega)⟩
          · exact Or.inr ⟨by omega, Or.inl (by omega)⟩
          · exact Or.inr ⟨by omega, Or.inl (by omega)⟩
          · exact Or.inr ⟨by omega, Or.inr ⟨by omega, ih bs cs hkx hky⟩⟩

/-- Tokenize a string for numeric-aware comparison: maximal digit runs
become `(0, value)`, other characters `(1, code point)`.  Fueled for
structural recursion; fuel is instantiated with the string length. -/
def tokenizeKeyGo : ℕ → List Char → List (ℕ × ℕ)
  | 0, _ => []
  | _ + 1, [] => []
  | f + 1, c :: t =>
    if c.isDigit then
      let ds := t.takeWhile Char.isDigit
      (0, digitsToNat (c :: ds)) :: tokenizeKeyGo f (t.drop ds.length)
    else (1, c.toNat) :: tokenizeKeyGo f t

def sortKey (s : String) : List (ℕ × ℕ) := tokenizeKeyGo s.data.length s.data

/-- The file comparator: `a.localeCompare(b, undefined, { numeric: true }) ≤ 0`. -/
def natLe (a b : String) : Bool := keyLe (sortKey a) (sortKey b)

def lexKey (s : String) : List (ℕ × ℕ) := s.data.map (fun c => (0, c.toNat))

/-- The default sort comparator: code-unit lexicographic `≤`. -/
def lexLe (a b : String) : Bool := keyLe (lexKey a) (lexKey b)

def natOrd (a b : String) : Prop := natLe a b = true

def strOrd (a b : String) : Prop := lexLe a b = true

instance : DecidableRel natOrd := fun _ _ => inferInstanceAs (Decidable (_ = true))

instance : DecidableRel strOrd := fun _ _ => inferInstanceAs (Decidable (_ = true))

instance : IsTotal String natOrd := ⟨fun a b => keyLe_total (sortKey a) (sortKey b)⟩

instance : IsTrans String natOrd :=
  ⟨fun a b c hab hbc => keyLe_trans (sortKey a) (sortKey b) (sortKey c) hab hbc⟩

instance : IsTotal String strOrd := ⟨fun a b => keyLe_total (lexKey a) (lexKey b)⟩

instance : IsTrans String strOrd :=
  ⟨fun a b c hab hbc => keyLe_trans (lexKey a) (lexKey b) (lexKey c) hab hbc⟩

example : natLe "part2.svg" "part10.svg" = true := by decide
example : natLe "part10.svg" "part2.svg" = false := by decide
example : lexLe "part10.svg" "part2.svg" = true := by decide
example : List.insertionSort natOrd ["part10.svg", "part2.svg"] = ["part2.svg", "part10.svg"] := by
  decide

/-! ### Layout constants (generate-catalog.mjs, top of file) -/

def padding : ℕ := 24
def cols : ℕ := 5
def thumbWidth : ℕ := 180
def thumbHeight : ℕ := 240
def labelHeight : ℕ := 18
def colWidth : ℕ := 200
def blockHeight : ℕ := thumbHeight + labelHeight + 12
def categoryGap : ℕ := 32

/-- `innerW = thumbWidth - 16` (per-fragment loop). -/
def innerW : ℕ := thumbWidth - 16

/-- `innerH = thumbHeight - 32` (per-fragment loop). -/
def innerH : ℕ := thumbHeight - 32

/-- `scale = Math.min(innerW / vb.width, innerH / vb.height)`. -/
def scaleOf (vb : ViewBox) : JSNum :=
  jmin (jdiv (.num ((innerW : ℕ) : ℚ)) vb.width) (jdiv (.num ((innerH : ℕ) : ℚ)) vb.height)

/-- `tx = 8 + (innerW - vb.width * scale) / 2 - vb.minX * scale`. -/
def txOf (vb : ViewBox) : JSNum :=
  jsub
    (jadd (.num 8)
      (jdiv (jsub (.num ((innerW : ℕ) : ℚ)) (jmul vb.width (scaleOf vb))) (.num 2)))
    (jmul vb.minX (scaleOf vb))

/-- `ty = 8 + (innerH - vb.height * scale) / 2 - vb.minY * scale`. -/
def tyOf (vb : ViewBox) : JSNum :=
  jsub
    (jadd (.num 8)
      (jdiv (jsub (.num ((innerH : ℕ) : ℚ)) (jmul vb.height (scaleOf vb))) (.num 2)))
    (jmul vb.minY (scaleOf vb))

/-! ### The input directory tree and the output document -/

/-- One file inside a category directory. -/
structure FileEntry where
  name : String
  content : String
deriving DecidableEq

/-- One entry of the root asset directory. -/
structure DirEntry where
  name : String
  isDir : Bool
  files : List FileEntry
deriving DecidableEq

/-- `name.startsWith(".")`. -/
def startsDot (s : String) : Bool :=
  match s.data with
  | '.' :: _ => true
  | _ => false

/-- Case-sensitive suffix test (for `file.endsWith(".svg")`). -/
def endsWithCS (suf s : List Char) : Bool := startsWithCS suf.reverse s.reverse

/-- The category list: immediate subdirectories whose name does not start
with a dot, sorted with the default comparator. -/
def categoriesOf (root : List DirEntry) : List String :=
  List.insertionSort strOrd
    ((root.filter (fun e => !startsDot e.name && e.isDir)).map DirEntry.name)

/-- `readdirSync` of one category directory. -/
def dirFilesOf (root : List DirEntry) (c : String) : List FileEntry :=
  match root.find? (fun e => e.name == c) with
  | some e => e.files
  | none => []

/-- The member files of a category: entries ending in `.svg`, sorted with
the numeric-aware locale comparator. -/
def filesOf (root : List DirEntry) (c : String) : List String :=
  List.insertionSort natOrd
    (((dirFilesOf root c).map FileEntry.name).filter (fun n => endsWithCS ".svg".data n.data))

/-- `path.basename(file, ".svg")`. -/
def basenameSvg (name : String) : String :=
  if endsWithCS ".svg".data name.data then ⟨name.data.take (name.data.length - 4)⟩ else name

/-- One emitted markup chunk, modelled structurally: the fields are
exactly the values the source interpolates into the markup string. -/
inductive Chunk where
  | title (x y : ℕ) (text : String)
  | frag (x yOffset : ℕ) (id : String) (tx ty scale : JSNum) (inner : String)
deriving DecidableEq

/-- The fragment block for file number `idx` of a category whose grid
starts at vertical cursor `y` (the body of `files.forEach`). -/
def fragChunk (y idx : ℕ) (file raw : String) : Chunk :=
  let clean := sanitize (stripProlog raw)
  let vb := extractViewBox raw
  let inner := extractInner clean
  let col := idx % cols
  let row := idx / cols
  let x := padding + col * colWidth
  let yOffset := y + row * blockHeight
  let id := basenameSvg file
  .frag x yOffset id (txOf vb) (tyOf vb) (scaleOf vb) inner

/-- One iteration of the category loop: the emitted chunks (title first,
then the fragment blocks) and the updated vertical cursor. -/
def catChunks (root : List DirEntry) (y : ℕ) (category : String) : List Chunk × ℕ :=
  let files := filesOf root category
  let y1 := y + 22
  let frs := files.enum.map (fun p =>
    fragChunk y1 p.1 p.2
      (match (dirFilesOf root category).find? (fun fe => fe.name == p.2) with
       | some fe => fe.content
       | none => ""))
  let rows := (files.length + (cols - 1)) / cols
  (Chunk.title padding y category :: frs, y1 + rows * blockHeight + categoryGap)

/-- The whole category loop, starting from `y = padding`. -/
def buildChunks (root : List DirEntry) : List Chunk × ℕ :=
  (categoriesOf root).foldl
    (fun acc c =>
      let r := catChunks root acc.2 c
      (acc.1 ++ r.1, r.2))
    ([], padding)

/-- The composite document.  The source interpolates the same `width` and
`height` variables into the `width`/`height` attributes and into the
`viewBox="0 0 width height"` attribute of the root element; the record
keeps all four interpolated values. -/
structure Catalog where
  widthAttr : ℕ
  heightAttr : ℕ
  viewBoxW : ℕ
  viewBoxH : ℕ
  chunks : List Chunk
deriving DecidableEq

/-- `main` up to the serialization: compute every chunk and the canvas
size (`width = padding * 2 + cols * colWidth`, `height = y + padding`). -/
def buildCatalog (root : List DirEntry) : Catalog :=
  { widthAttr := padding * 2 + cols * colWidth
    heightAttr := (buildChunks root).2 + padding
    viewBoxW := padding * 2 + cols * colWidth
    viewBoxH := (buildChunks root).2 + padding
    chunks := (buildChunks root).1 }

def isTitleChunk : Chunk → Bool
  | .title .. => true
  | _ => false

def isFragChunk : Chunk → Bool
  | .frag .. => true
  | _ => false

/-- The fragment identifier of a fragment block. -/
def fragIdOf : Chunk → Option String
  | .frag _ _ id _ _ _ _ => some id
  | _ => none

/-- A chunk's label: `Sum.inl` for a category title, `Sum.inr` for a
fragment identifier. -/
def chunkLabel : Chunk → String ⊕ String
  | .title _ _ t => Sum.inl t
  | .frag _ _ id _ _ _ _ => Sum.inr id

example :
    categoriesOf [⟨"mouths", true, []⟩, ⟨".git", true, []⟩, ⟨"eyes", true, []⟩,
      ⟨"readme.md", false, []⟩] = ["eyes", "mouths"] := by decide

example : basenameSvg "left.svg" = "left" := by decide

/-- The end-to-end scenario input of the spec's testable property 6. -/
def exampleRoot : List DirEntry :=
  [⟨"eyes", true,
     [⟨"left.svg", "<svg viewBox=\"0 0 100 100\"><circle r=\"4\"/></svg>"⟩,
      ⟨"right.svg", "<svg viewBox=\"0 0 50 200\"><circle r=\"6\"/></svg>"⟩]⟩,
   ⟨"mouths", true,
     [⟨"smile.svg", "<svg viewBox=\"0 0 200 50\"><path d=\"M0 0\"/></svg>"⟩]⟩]

example : (buildCatalog exampleRoot).chunks.map chunkLabel =
    [Sum.inl "eyes", Sum.inr "left", Sum.inr "right", Sum.inl "mouths", Sum.inr "smile"] := by
  decide

/-! ### The run and the best-effort raster export

`main` writes the composite SVG, logs, then awaits `tryWritePng`, whose
whole body (the dynamic import of sharp, the file read, and the
conversion) sits inside one `try`; any failure is caught and downgraded
to a warning.  `main().catch(...)` sets a nonzero exit code only when
`main` itself throws.  The run is modelled as explicit state; the
conversion attempt (import + read + convert) is one injected
`Except String Unit` outcome. -/

def outputPath : String := "catalog.svg"

/-- `outputPath.replace(/\.svg$/i, ".png")`. -/
def pngPath : String := "catalog.png"

structure RunState where
  svgFile : Option Catalog
  exitCode : ℕ
  logs : List String
  warns : List String
deriving DecidableEq

/-- `tryWritePng`: on success log the written path; on any failure warn,
naming the skipped output, and return normally. -/
def tryWritePng (conversion : Except String Unit) (st : RunState) : RunState :=
  match conversion with
  | .ok _ => { st with logs := st.logs ++ ["Wrote " ++ pngPath] }
  | .error _ =>
    { st with warns := st.warns ++
        ["Skipping PNG output for " ++ pngPath ++
          ". Install sharp to enable PNG export (pnpm add -D sharp)."] }

/-- `main`: build the catalog, write it, log, then attempt the raster
export.  No step after the write can throw, so the exit code is 0. -/
def mainRun (root : List DirEntry) (conversion : Except String Unit) : RunState :=
  tryWritePng conversion
    { svgFile := some (buildCatalog root)
      exitCode := 0
      logs := ["Wrote " ++ outputPath]
      warns := [] }

/-! ### replaceFeatureIds (src/features.ts)

A face value is a non-null object (with its `id` field and its remaining
fields), a primitive, null, or absent (`undefined`); the face itself is a
field assignment.  `deepCopy` makes the source function pure, so it is
modelled as a pure map on the assignment. -/

inductive FVal where
  | obj (id : String) (fields : List (String × String))
  | prim (v : String)
  | nullv
  | undef
deriving DecidableEq

/-- One iteration of the `for (const [feature, newId] of ...)` loop:
skip falsy ids (the empty string is the only falsy string); when the
face's value at that feature is a truthy object, set its `id`. -/
def applyReplacement (next : String → FVal) (p : String × String) : String → FVal :=
  if p.2 = "" then next
  else
    match next p.1 with
    | .obj _ fields => Function.update next p.1 (.obj p.2 fields)
    | _ => next

/-- `replaceFeatureIds(face, replacements)`: walk the replacement entries
in order, applying each to the (deep-copied, hence pure) face. -/
def replaceFeatureIds (face : String → FVal) (replacements : List (String × String)) :
    String → FVal :=
  replacements.foldl applyReplacement face

example :
    replaceFeatureIds
      (fun k => if k = "eye" then .obj "eye1" [("size", "2")] else .undef)
      [("eye", "eye9"), ("mouth", "m2"), ("hair", "")] "eye" =
    .obj "eye9" [("size", "2")] := by decide

/-! ### No-match identity lemmas for the text passes

When a string contains no occurrence of a pass's trigger pattern, that
pass is the identity.  These feed the (partial) idempotence theorem for
the sanitization pipeline. -/

theorem hasSubCI_cons_false {p : List Char} {c : Char} {t : List Char}
    (h : hasSubCI p (c :: t) = false) :
    startsWithCI p (c :: t) = false ∧ hasSubCI p t = false := by
  simpa only [hasSubCI, Bool.or_eq_false_iff] using h

theorem hasSubCS_cons_false {p : List Char} {c : Char} {t : List Char}
    (h : hasSubCS p (c :: t) = false) :
    startsWithCS p (c :: t) = false ∧ hasSubCS p t = false := by
  simpa only [hasSubCS, Bool.or_eq_false_iff] using h

theorem hasSubCI_of_suffix {p t s : List Char} (hs : t <:+ s)
    (h : startsWithCI p t = true) : hasSubCI p s = true := by
  induction s with
  | nil =>
    rw [List.suffix_nil] at hs
    subst hs
    simpa [hasSubCI] using h
  | cons c cs ih =>
    rcases List.suffix_cons_iff.mp hs with rfl | hs2
    · simp [hasSubCI, h]
    · simp [hasSubCI, ih hs2]

theorem startsWithCI_suffix_false {p s t : List Char} (hs : t <:+ s)
    (h : hasSubCI p s = false) : startsWithCI p t = false := by
  cases hx : startsWithCI p t with
  | false => rfl
  | true => exact absurd (hasSubCI_of_suffix hs hx) (by simp [h])

theorem rmXmlGo_id (f : ℕ) {s : List Char} (h : hasSubCI "<?xml".data s = false) :
    rmXmlGo f s = s := by
  induction f generalizing s with
  | zero => rfl
  | succ f ih =>
    cases s with
    | nil => rfl
    | cons c t =>
      obtain ⟨h1, h2⟩ := hasSubCI_cons_false h
      simp only [rmXmlGo, h1, Bool.false_eq_true, if_false]
      rw [ih h2]

theorem rmCommentsGo_id (f : ℕ) {s : List Char} (h : hasSubCS "<!--".data s = false) :
    rmCommentsGo f s = s := by
  induction f generalizing s with
  | zero => rfl
  | succ f ih =>
    cases s with
    | nil => rfl
    | cons c t =>
      obtain ⟨h1, h2⟩ := hasSubCS_cons_false h
      simp only [rmCommentsGo, h1, Bool.false_eq_true, if_false]
      rw [ih h2]

theorem rmDoctypeGo_id (f : ℕ) {s : List Char} (h : hasSubCI "<!doctype".data s = false) :
    rmDoctypeGo f s = s := by
  induction f generalizing s with
  | zero => rfl
  | succ f ih =>
    cases s with
    | nil => rfl
    | cons c t =>
      obtain ⟨h1, h2⟩ := hasSubCI_cons_false h
      simp only [rmDoctypeGo, h1, Bool.false_eq_true, if_false]
      rw [ih h2]

theorem rmMetadataGo_id (f : ℕ) {s : List Char} (h : hasSubCI "<metadata".data s = false) :
    rmMetadataGo f s = s := by
  induction f generalizing s with
  | zero => rfl
  | succ f ih =>
    cases s with
    | nil => rfl
    | cons c t =>
      obtain ⟨h1, h2⟩ := hasSubCI_cons_false h
      simp only [rmMetadataGo, h1, Bool.false_eq_true, if_false]
      rw [ih h2]

theorem matchEditorOpen_eq_none {s : List Char}
    (h1 : hasSubCI "sodipodi:".data s = false)
    (h2 : hasSubCI "inkscape:".data s = false) :
    matchEditorOpen s = none := by
  cases s with
  | nil => rfl
  | cons c t =>
    have hsuf : t.dropWhile isWs <:+ c :: t :=
      (List.dropWhile_suffix isWs).trans (List.suffix_cons c t)
    have a1 := startsWithCI_suffix_false hsuf h1
    have a2 := startsWithCI_suffix_false hsuf h2
    simp [matchEditorOpen, a1, a2]

theorem matchEditorAttr_eq_none {s : List Char}
    (h1 : hasSubCI "sodipodi:".data s = false)
    (h2 : hasSubCI "inkscape:".data s = false) :
    matchEditorAttr s = none := by
  cases s with
  | nil => rfl
  | cons c t =>
    have hsuf : t.dropWhile isWs <:+ c :: t :=
      (List.dropWhile_suffix isWs).trans (List.suffix_cons c t)
    have hsuf2 : (c :: t).dropWhile isWs <:+ c :: t := List.dropWhile_suffix isWs
    have a1 := startsWithCI_suffix_false hsuf h1
    have a2 := startsWithCI_suffix_false hsuf h2
    have b1 := startsWithCI_suffix_false hsuf2 h1
    have b2 := startsWithCI_suffix_false hsuf2 h2
    by_cases hw : isWs c
    · simp [matchEditorAttr, hw, a1, a2, b1, b2]
    · simp [matchEditorAttr, hw]

theorem rmEditorPairedGo_id (f : ℕ) {s : List Char}
    (h1 : hasSubCI "sodipodi:".data s = false)
    (h2 : hasSubCI "inkscape:".data s = false) :
    rmEditorPairedGo f s = s := by
  induction f generalizing s with
  | zero => rfl
  | succ f ih =>
    cases s with
    | nil => rfl
    | cons c t =>
      rw [rmEditorPairedGo, matchEditorOpen_eq_none h1 h2]
      rw [ih (hasSubCI_cons_false h1).2 (hasSubCI_cons_false h2).2]

theorem rmEditorSelfGo_id (f : ℕ) {s : List Char}
    (h1 : hasSubCI "sodipodi:".data s = false)
    (h2 : hasSubCI "inkscape:".data s = false) :
    rmEditorSelfGo f s = s := by
  induction f generalizing s with
  | zero => rfl
  | succ f ih =>
    cases s with
    | nil => rfl
    | cons c t =>
      rw [rmEditorSelfGo, matchEditorOpen_eq_none h1 h2]
      rw [ih (hasSubCI_cons_false h1).2 (hasSubCI_cons_false h2).2]

theorem rmEditorAttrsGo_id (f : ℕ) {s : List Char}
    (h1 : hasSubCI "sodipodi:".data s = false)
    (h2 : hasSubCI "inkscape:".data s = false) :
    rmEditorAttrsGo f s = s := by
  induction f generalizing s with
  | zero => rfl
  | succ f ih =>
    cases s with
    | nil => rfl
    | cons c t =>
      rw [rmEditorAttrsGo, matchEditorAttr_eq_none h1 h2]
      rw [ih (hasSubCI_cons_false h1).2 (hasSubCI_cons_false h2).2]

theorem rmFirstSvgOpen_id {s : List Char} (h : hasSubCI "<svg".data s = false) :
    rmFirstSvgOpen s = s := by
  induction s with
  | nil => rfl
  | cons c t ih =>
    obtain ⟨h1, h2⟩ := hasSubCI_cons_false h
    simp only [rmFirstSvgOpen, h1, Bool.false_eq_true, if_false]
    rw [ih h2]

theorem rmFirstSvgClose_id {s : List Char} (h : hasSubCI "</svg>".data s = false) :
    rmFirstSvgClose s = s := by
  induction s with
  | nil => rfl
  | cons c t ih =>
    obtain ⟨h1, h2⟩ := hasSubCI_cons_false h
    simp only [rmFirstSvgClose, h1, Bool.false_eq_true, if_false]
    rw [ih h2]

/-- No residue of any trigger pattern of the pipeline's passes. -/
def residueFree (s : List Char) : Bool :=
  !hasSubCI "<?xml".data s && !hasSubCS "<!--".data s && !hasSubCI "<!doctype".data s &&
  !hasSubCI "<metadata".data s && !hasSubCI "sodipodi:".data s && !hasSubCI "inkscape:".data s &&
  !hasSubCI "<svg".data s && !hasSubCI "</svg>".data s

theorem fullPipelineL_id {s : List Char} (h : residueFree s = true) :
    fullPipelineL s = s := by
  simp only [residueFree, Bool.and_eq_true, Bool.not_eq_true'] at h
  obtain ⟨⟨⟨⟨⟨⟨⟨hx, hc⟩, hd⟩, hm⟩, hs1⟩, hs2⟩, ho⟩, hcl⟩ := h
  rw [fullPipelineL, stripPrologL, sanitizeL, extractInnerL]
  rw [rmXml, rmXmlGo_id _ hx, rmComments, rmCommentsGo_id _ hc]
  rw [rmDoctype, rmDoctypeGo_id _ hd, rmMetadata, rmMetadataGo_id _ hm]
  rw [rmEditorPaired, rmEditorPairedGo_id _ hs1 hs2]
  rw [rmEditorSelf, rmEditorSelfGo_id _ hs1 hs2]
  rw [rmEditorAttrs, rmEditorAttrsGo_id _ hs1 hs2]
  rw [rmFirstSvgOpen_id ho, rmFirstSvgClose_id hcl]

/-! ### Claim C4: idempotence of the sanitization pipeline -/

/-- An input on which comment stripping manufactures a new XML prolog:
the first pass leaves `<?xml a?>`, which a second pass would remove. -/
def doubleStripInput : String := "<?x<!-- -->ml a?>"

/-- Claim C4, counterexample: the full sanitization pipeline is not
idempotent.  On `"<?x<!-- -->ml a?>"` one application yields
`"<?xml a?>"` (the comment pass splices the pieces of a prolog together),
and a second application strips that prolog, yielding `""`. -/
theorem sanitize_not_idempotent_counterexample :
    fullPipeline doubleStripInput = "<?xml a?>" ∧
    fullPipeline (fullPipeline doubleStripInput) = "" ∧
    fullPipeline (fullPipeline doubleStripInput) ≠ fullPipeline doubleStripInput :=
  ⟨by decide, by decide, by decide⟩

/-- Claim C4 (amended): the sanitization pipeline is idempotent on every
input whose sanitized output contains no residual trigger pattern of any
pass (no XML-prolog opener, comment opener, doctype, metadata tag,
editor-namespace marker, or svg open/close tag); re-applying the pipeline
to such an output returns it unchanged. -/
theorem sanitize_idempotent_of_residueFree (raw : String)
    (h : residueFree (fullPipeline raw).data = true) :
    fullPipeline (fullPipeline raw) = fullPipeline raw := by
  have hid : fullPipelineL (fullPipeline raw).data = (fullPipeline raw).data :=
    fullPipelineL_id h
  show (⟨fullPipelineL (fullPipeline raw).data⟩ : String) = fullPipeline raw
  rw [hid]

/-- Witness for `sanitize_idempotent_of_residueFree` at a typical
fragment file. -/
theorem sanitize_idempotent_of_residueFree_witness :
    residueFree (fullPipeline "<svg viewBox=\"0 0 5 5\"><rect/></svg>").data = true ∧
    fullPipeline (fullPipeline "<svg viewBox=\"0 0 5 5\"><rect/></svg>") =
      fullPipeline "<svg viewBox=\"0 0 5 5\"><rect/></svg>" :=
  ⟨by decide, sanitize_idempotent_of_residueFree "<svg viewBox=\"0 0 5 5\"><rect/></svg>" (by decide)⟩

/-! ### Claim C2: canvas dimensions -/

/-- What one category contributes to the vertical cursor: the title row,
the grid rows, and the inter-category gap. -/
def categoryAdvance (root : List DirEntry) (c : String) : ℕ :=
  22 + (((filesOf root c).length + (cols - 1)) / cols) * blockHeight + categoryGap

theorem catChunks_snd (root : List DirEntry) (y : ℕ) (c : String) :
    (catChunks root y c).2 = y + categoryAdvance root c := by
  simp only [catChunks, categoryAdvance]
  omega

theorem buildChunks_snd (root : List DirEntry) :
    (buildChunks root).2 =
      padding + ((categoriesOf root).map (fun c => categoryAdvance root c)).sum := by
  have key : ∀ (cats : List String) (acc : List Chunk × ℕ),
      (cats.foldl (fun acc c =>
        let r := catChunks root acc.2 c
        (acc.1 ++ r.1, r.2)) acc).2
      = acc.2 + (cats.map (fun c => categoryAdvance root c)).sum := by
    intro cats
    induction cats with
    | nil => intro acc; simp
    | cons c cs ih =>
      intro acc
      simp only [List.foldl_cons, List.map_cons, List.sum_cons]
      rw [ih]
      simp only [catChunks_snd]
      omega
  exact key (categoriesOf root) ([], padding)

/-- Claim C2: the composite root element's numeric `width`/`height`
attributes equal the numbers in its own `viewBox`, the width is
`2 * padding + cols * colWidth`, and the height is the final vertical
cursor plus the padding (with the cursor given in closed form as the sum
of the per-category advances over the starting padding). -/
theorem catalog_canvas_dimensions (root : List DirEntry) :
    (buildCatalog root).widthAttr = (buildCatalog root).viewBoxW ∧
    (buildCatalog root).heightAttr = (buildCatalog root).viewBoxH ∧
    (buildCatalog root).widthAttr = 2 * padding + cols * colWidth ∧
    (buildCatalog root).heightAttr = (buildChunks root).2 + padding ∧
    (buildChunks root).2 =
      padding + ((categoriesOf root).map (fun c => categoryAdvance root c)).sum := by
  refine ⟨rfl, rfl, by norm_num [buildCatalog, padding, cols, colWidth], rfl, buildChunks_snd root⟩

/-! ### Claim C3: sort orders -/

/-- Claim C3: category member files are sorted by the numeric-aware
locale comparator (and are a permutation of the `.svg`-filtered
directory entries), categories are sorted by the lexicographic default
comparator, and the two comparators genuinely differ: numerically
`part2.svg` precedes `part10.svg` while lexicographically `part10.svg`
precedes `part2.svg`. -/
theorem catalog_sort_orders :
    (∀ root : List DirEntry, List.Sorted strOrd (categoriesOf root)) ∧
    (∀ (root : List DirEntry) (c : String),
        List.Sorted natOrd (filesOf root c) ∧
        (filesOf root c).Perm
          (((dirFilesOf root c).map FileEntry.name).filter
            (fun n => endsWithCS ".svg".data n.data))) ∧
    natLe "part2.svg" "part10.svg" = true ∧
    natLe "part10.svg" "part2.svg" = false ∧
    lexLe "part10.svg" "part2.svg" = true ∧
    lexLe "part2.svg" "part10.svg" = false :=
  ⟨fun _ => List.sorted_insertionSort strOrd _,
   fun _ _ => ⟨List.sorted_insertionSort natOrd _, List.perm_insertionSort natOrd _⟩,
   by decide, by decide, by decide, by decide⟩

/-! ### Claim C5: the empty category -/

/-- Claim C5 (amended): a category with no member fragments emits exactly
its title chunk and advances the vertical cursor by the title-row height
plus the inter-category gap (`22 + categoryGap`), with no grid rows. -/
theorem emptyCategory_layout (root : List DirEntry) (y : ℕ) (c : String)
    (h : filesOf root c = []) :
    (catChunks root y c).1 = [Chunk.title padding y c] ∧
    (catChunks root y c).2 = y + 22 + categoryGap := by
  constructor
  · simp [catChunks, h]
  · rw [catChunks_snd]
    simp [categoryAdvance, h, cols, categoryGap]

/-- A root with a single empty category. -/
def emptyRoot : List DirEntry := [⟨"empty", true, []⟩]

/-- Witness for `emptyCategory_layout`. -/
theorem emptyCategory_layout_witness :
    filesOf emptyRoot "empty" = [] ∧
    (catChunks emptyRoot padding "empty").1 = [Chunk.title padding padding "empty"] ∧
    (catChunks emptyRoot padding "empty").2 = padding + 22 + categoryGap :=
  ⟨by decide,
   (emptyCategory_layout emptyRoot padding "empty" (by decide)).1,
   (emptyCategory_layout emptyRoot padding "empty" (by decide)).2⟩

/-- Claim C5, counterexample to the cursor part as stated: an empty
category does not advance the cursor by the title-row height alone; the
inter-category gap is added as well. -/
theorem emptyCategory_cursor_counterexample :
    (catChunks emptyRoot padding "empty").2 ≠ padding + 22 := by decide

/-! ### Claim C6: the view-box fallback -/

theorem findViewBoxBody_eq_none {s : List Char}
    (h : hasSubCI "viewbox=\"".data s = false) : findViewBoxBody s = none := by
  induction s with
  | nil => rfl
  | cons c t ih =>
    obtain ⟨h1, h2⟩ := hasSubCI_cons_false h
    simp only [findViewBoxBody, h1, Bool.false_eq_true, if_false]
    exact ih h2

/-- Claim C6 (amended): the default box (0, 0, 400, 600) is returned
exactly when the view-box regex finds no match — in particular whenever
the text has no `viewBox="` occurrence at all; a matched but unparsable
attribute body instead yields non-numeric (NaN/undefined) fields. -/
theorem viewBox_default_on_absent (raw : String)
    (h : findViewBoxBody raw.data = none) :
    extractViewBox raw = defaultViewBox := by
  simp [extractViewBox, h]

/-- Witness for `viewBox_default_on_absent`. -/
theorem viewBox_default_on_absent_witness :
    findViewBoxBody ("<svg><rect/></svg>" : String).data = none ∧
    extractViewBox "<svg><rect/></svg>" = defaultViewBox :=
  ⟨by decide, viewBox_default_on_absent "<svg><rect/></svg>" (by decide)⟩

/-- Claim C6, counterexample to the unparsable case: the attribute
`viewBox="abc"` matches the regex, so the fallback is not used; every
field of the result is NaN, not the default box. -/
theorem viewBox_unparsable_counterexample :
    findViewBoxBody ("<svg viewBox=\"abc\">" : String).data = some "abc".data ∧
    extractViewBox "<svg viewBox=\"abc\">" = ⟨.nan, .nan, .nan, .nan⟩ ∧
    extractViewBox "<svg viewBox=\"abc\">" ≠ defaultViewBox :=
  ⟨by decide, by decide, by decide⟩

/-! ### Claim C7: best-effort raster export -/

/-- Claim C7: whatever the outcome of the raster conversion attempt, the
run keeps the already-written composite document unchanged and exits with
code 0; a failed attempt leaves exactly one warning naming the skipped
output path. -/
theorem raster_export_harmless (root : List DirEntry) (conversion : Except String Unit)
    (e : String) :
    (mainRun root conversion).svgFile = some (buildCatalog root) ∧
    (mainRun root conversion).exitCode = 0 ∧
    (mainRun root (Except.error e)).warns =
      ["Skipping PNG output for " ++ pngPath ++
        ". Install sharp to enable PNG export (pnpm add -D sharp)."] := by
  refine ⟨?_, ?_, rfl⟩ <;> cases conversion <;> rfl

/-! ### Claim C8: the end-to-end scenario -/

/-- Claim C8: on the two-category example the composite document holds
exactly 3 fragment blocks and 2 title nodes, interleaved in the order
eyes, eyes/left, eyes/right, mouths, mouths/smile, and the canvas width
equals `2 * padding + cols * colWidth` (independent of the fragment
count). -/
theorem end_to_end_example :
    (buildCatalog exampleRoot).chunks.countP isFragChunk = 3 ∧
    (buildCatalog exampleRoot).chunks.countP isTitleChunk = 2 ∧
    (buildCatalog exampleRoot).chunks.map chunkLabel =
      [Sum.inl "eyes", Sum.inr "left", Sum.inr "right", Sum.inl "mouths", Sum.inr "smile"] ∧
    (buildCatalog exampleRoot).chunks.filterMap fragIdOf = ["left", "right", "smile"] ∧
    (buildCatalog exampleRoot).widthAttr = 2 * padding + cols * colWidth :=
  ⟨by decide, by decide, by decide, by decide, by decide⟩

/-! ### Claim C1: fragment scale and centering -/

/-- A view box with four plain numeric fields. -/
def numBox (x y w h : ℚ) : ViewBox := ⟨.num x, .num y, .num w, .num h⟩

/-- The scale the spec prescribes: `min(innerW / w, innerH / h)`. -/
def fitScale (w h : ℚ) : ℚ := min (((innerW : ℕ) : ℚ) / w) (((innerH : ℕ) : ℚ) / h)

theorem txOf_num {vb : ViewBox} {x w s : ℚ} (hx : vb.minX = .num x) (hw : vb.width = .num w)
    (hs : scaleOf vb = .num s) :
    txOf vb = .num (8 + (((innerW : ℕ) : ℚ) - w * s) / 2 - x * s) := by
  have h2 : (2 : ℚ) ≠ 0 := by norm_num
  rw [txOf, hs, hx, hw]
  simp only [jmul, jsub, jneg, jadd, jdiv, if_neg h2, JSNum.num.injEq]
  ring

theorem tyOf_num {vb : ViewBox} {y h s : ℚ} (hy : vb.minY = .num y) (hh : vb.height = .num h)
    (hs : scaleOf vb = .num s) :
    tyOf vb = .num (8 + (((innerH : ℕ) : ℚ) - h * s) / 2 - y * s) := by
  have h2 : (2 : ℚ) ≠ 0 := by norm_num
  rw [tyOf, hs, hy, hh]
  simp only [jmul, jsub, jneg, jadd, jdiv, if_neg h2, JSNum.num.injEq]
  ring

/-- Claim C1: for a fragment with parsed view box (minX, minY, w, h),
w, h > 0, the computed scale is `min(innerW / w, innerH / h)` (so the
scaled box fits in the `(thumbWidth - 16, thumbHeight - 32)` inner area),
and the computed translation centers the scaled view box in that inner
area, compensating for minX/minY: the left and right (top and bottom)
margins around the scaled box inside the inner area, whose origin is at
(8, 8) in the cell, are equal. -/
theorem layout_scale_centered (minX minY w h : ℚ) (hw : 0 < w) (hh : 0 < h) :
    scaleOf (numBox minX minY w h) = .num (fitScale w h) ∧
    w * fitScale w h ≤ ((innerW : ℕ) : ℚ) ∧
    h * fitScale w h ≤ ((innerH : ℕ) : ℚ) ∧
    txOf (numBox minX minY w h) =
      .num (8 + (((innerW : ℕ) : ℚ) - w * fitScale w h) / 2 - minX * fitScale w h) ∧
    tyOf (numBox minX minY w h) =
      .num (8 + (((innerH : ℕ) : ℚ) - h * fitScale w h) / 2 - minY * fitScale w h) ∧
    (8 + (((innerW : ℕ) : ℚ) - w * fitScale w h) / 2 - minX * fitScale w h)
        + minX * fitScale w h - 8
      = (8 + ((innerW : ℕ) : ℚ))
        - ((8 + (((innerW : ℕ) : ℚ) - w * fitScale w h) / 2 - minX * fitScale w h)
            + (minX + w) * fitScale w h) ∧
    (8 + (((innerH : ℕ) : ℚ) - h * fitScale w h) / 2 - minY * fitScale w h)
        + minY * fitScale w h - 8
      = (8 + ((innerH : ℕ) : ℚ))
        - ((8 + (((innerH : ℕ) : ℚ) - h * fitScale w h) / 2 - minY * fitScale w h)
            + (minY + h) * fitScale w h) := by
  have hw0 : w ≠ 0 := ne_of_gt hw
  have hh0 : h ≠ 0 := ne_of_gt hh
  have hs : scaleOf (numBox minX minY w h) = .num (fitScale w h) := by
    simp [scaleOf, numBox, jdiv, jmin, hw0, hh0, fitScale]
  refine ⟨hs, ?_, ?_, ?_, ?_, by ring, by ring⟩
  · calc w * fitScale w h = fitScale w h * w := by ring
      _ ≤ ((innerW : ℕ) : ℚ) := (le_div_iff₀ hw).mp (min_le_left _ _)
  · calc h * fitScale w h = fitScale w h * h := by ring
      _ ≤ ((innerH : ℕ) : ℚ) := (le_div_iff₀ hh).mp (min_le_right _ _)
  · exact txOf_num rfl rfl hs
  · exact tyOf_num rfl rfl hs

/-- Witness for `layout_scale_centered`. -/
theorem layout_scale_centered_witness :
    (0 : ℚ) < 100 ∧ (0 : ℚ) < 50 ∧
    scaleOf (numBox 2 3 100 50) = .num (fitScale 100 50) :=
  ⟨by decide, by decide, (layout_scale_centered 2 3 100 50 (by decide) (by decide)).1⟩

/-! ### Claim C9: replaceFeatureIds -/

theorem applyReplacement_ne (next : String → FVal) (p : String × String) (f : String)
    (hne : p.1 ≠ f) : applyReplacement next p f = next f := by
  unfold applyReplacement
  split_ifs with h
  · rfl
  · cases hv : next p.1 with
    | obj id fields => simp [Function.update_noteq (Ne.symm hne)]
    | prim v => rfl
    | nullv => rfl
    | undef => rfl

/-- Claim C9: `replaceFeatureIds` is pure (it works on a deep copy, so
the input assignment is untouched) and pointwise the returned face
differs from the input only as follows: at a feature that has a
replacement entry with a truthy (nonempty) id and whose face value is a
truthy (non-null) object, the object's id becomes the replacement id and
the remaining fields are kept; every other feature keeps its original
value. -/
theorem replaceFeatureIds_spec (face : String → FVal) (rs : List (String × String))
    (hnd : (rs.map Prod.fst).Nodup) (f : String) :
    replaceFeatureIds face rs f =
      match rs.find? (fun p => p.1 == f) with
      | some p =>
        if p.2 = "" then face f
        else
          match face f with
          | .obj _ fields => .obj p.2 fields
          | v => v
      | none => face f := by
  induction rs generalizing face with
  | nil => rfl
  | cons r rest ih =>
    rw [List.map_cons, List.nodup_cons] at hnd
    obtain ⟨hnotin, hnd2⟩ := hnd
    have hstep : replaceFeatureIds face (r :: rest) = replaceFeatureIds (applyReplacement face r) rest := rfl
    by_cases hf : r.1 = f
    · subst hf
      have hfind : (r :: rest).find? (fun p => p.1 == r.1) = some r := by
        simp [List.find?_cons]
      have hrest : rest.find? (fun p => p.1 == r.1) = none := by
        apply List.find?_eq_none.mpr
        intro x hx
        simp only [beq_iff_eq]
        intro he
        exact hnotin (List.mem_map.mpr ⟨x, hx, he⟩)
      rw [hstep, ih (applyReplacement face r) hnd2, hrest, hfind]
      dsimp only
      unfold applyReplacement
      split_ifs with h2
      · rfl
      · cases hv : face r.1 with
        | obj id fields => simp [hv, h2, Function.update_same]
        | prim v => simp [hv, h2]
        | nullv => simp [hv, h2]
        | undef => simp [hv, h2]
    · have hfind : (r :: rest).find? (fun p => p.1 == f) = rest.find? (fun p => p.1 == f) := by
        simp [List.find?_cons, hf]
      rw [hstep, ih (applyReplacement face r) hnd2, hfind,
        applyReplacement_ne face r f hf]

/-- The example face and replacement map for the witness. -/
def faceEx : String → FVal := fun k =>
  if k = "eye" then .obj "eye1" [("size", "2")]
  else if k = "mouth" then .prim "m"
  else if k = "nose" then .nullv
  else .undef

def replsEx : List (String × String) := [("eye", "eye9"), ("mouth", "m2"), ("hair", "")]

/-- Witness for `replaceFeatureIds_spec`. -/
theorem replaceFeatureIds_spec_witness :
    (replsEx.map Prod.fst).Nodup ∧
    replaceFeatureIds faceEx replsEx "eye" =
      (match replsEx.find? (fun p => p.1 == "eye") with
       | some p =>
         if p.2 = "" then faceEx "eye"
         else
           match faceEx "eye" with
           | .obj _ fields => .obj p.2 fields
           | v => v
       | none => faceEx "eye") :=
  ⟨by decide, replaceFeatureIds_spec faceEx replsEx (by decide) "eye"⟩

/-! ### Claim C10: the view box is read from the raw text -/

/-- A fragment whose only pre-svg `viewBox` sits inside a comment that
sanitization removes. -/
def rawCommentBox : String :=
  "<!-- note viewBox=\"1 2 3 4\" --><svg viewBox=\"0 0 10 20\"><rect/></svg>"

/-- Claim C10: the per-fragment block takes its transform from
`extractViewBox` applied to the RAW file text while the embedded markup
comes from the sanitized text; the first `viewBox="..."` occurrence
anywhere wins, even inside a comment that sanitization strips.  On
`rawCommentBox`, the extracted box is the comment's (1, 2, 3, 4), not the
svg element's (0, 0, 10, 20); the sanitized inner markup `<rect/>`
retains no `viewBox` at all; and the fragment's scale is the one computed
from the comment's box, `min(164/3, 208/4) = 52`, not the `52/5` the svg
element's box would give. -/
theorem viewBox_read_from_raw :
    (∀ (y idx : ℕ) (file raw : String),
        fragChunk y idx file raw =
          Chunk.frag (padding + (idx % cols) * colWidth) (y + (idx / cols) * blockHeight)
            (basenameSvg file) (txOf (extractViewBox raw)) (tyOf (extractViewBox raw))
            (scaleOf (extractViewBox raw)) (extractInner (sanitize (stripProlog raw)))) ∧
    extractViewBox rawCommentBox = ⟨.num 1, .num 2, .num 3, .num 4⟩ ∧
    extractInner (sanitize (stripProlog rawCommentBox)) = "<rect/>" ∧
    hasSubCI "viewbox".data (extractInner (sanitize (stripProlog rawCommentBox))).data = false ∧
    scaleOf (extractViewBox rawCommentBox) = .num 52 ∧
    scaleOf ⟨.num 0, .num 0, .num 10, .num 20⟩ = .num (52 / 5) := by
  have h1 : extractViewBox rawCommentBox = ⟨.num 1, .num 2, .num 3, .num 4⟩ := by decide
  refine ⟨fun y idx file raw => rfl, h1, by decide, by decide, ?_, ?_⟩
  · rw [h1]
    have h3 : (3 : ℚ) ≠ 0 := by norm_num
    have h4 : (4 : ℚ) ≠ 0 := by norm_num
    simp only [scaleOf, jdiv, if_neg h3, if_neg h4, jmin, JSNum.num.injEq,
      innerW, innerH, thumbWidth, thumbHeight]
    norm_num [min_def]
  · have ha : (10 : ℚ) ≠ 0 := by norm_num
    have hb : (20 : ℚ) ≠ 0 := by norm_num
    simp only [scaleOf, jdiv, if_neg ha, if_neg hb, jmin, JSNum.num.injEq,
      innerW, innerH, thumbWidth, thumbHeight]
    norm_num [min_def]
